import Mathlib

/-!
Shallow embedding of the analytics core of the polytracker repository.

The embedding follows the decimal-based worker variant of the analytics
engine (`src/src/lib/analytics.worker.ts`), which the specification's design
notes designate as the authoritative P&L engine, together with the ghost
portfolio module (`getGhostTrades` / `buildGhostPortfolio`), the sector
classifier, and the validation layer (`src/src/lib/validation.ts`).

Modelling conventions:
* `Decimal` values and JS numbers used for money/share arithmetic are
  modelled as `ℚ` (the additions performed by the engine are exact in
  Decimal.js at the configured precision, and `ℚ` is the exact model).
* Timestamps are epoch milliseconds (`Int`); the JS code parses ISO strings
  with `new Date(...).getTime()`, which we take as already done.
* The ambient clock `Date.now()` is passed explicitly as a `now : Int`
  parameter wherever the source reads it.
* JS `Map` objects are association lists in insertion order, which matches
  JS `Map` iteration semantics.
-/

namespace Polytracker

/-- The closed set of sector tags (`Sector` in `src/src/lib/types.ts`). -/
inductive Sector
  | Politics
  | Crypto
  | Sports
  | Business
  | Entertainment
  | Other
deriving DecidableEq, Repr

/-- Trade side (`"BUY" | "SELL"`). -/
inductive Side
  | BUY
  | SELL
deriving DecidableEq, Repr

/-- A trade fill record (`Trade` in `src/src/lib/types.ts`), restricted to the
fields the analytics core reads. -/
structure Trade where
  conditionId : String
  marketTitle : String
  outcome : String
  side : Side
  size : ℚ
  price : ℚ
  usdcAmount : ℚ
  timestamp : Int
deriving DecidableEq, Repr

-- ═══════════════════════════════════════════════════════════
-- Sector Detection (analytics.worker.ts lines 18-34)
-- ═══════════════════════════════════════════════════════════

/-- Bool-valued substring occurrence test on character lists: `hasInfix pat s`
is true when `pat` occurs contiguously inside `s`.  This models a
case-sensitive literal-substring regex match. -/
def hasInfix (pat : List Char) : List Char → Bool
  | [] => pat.isEmpty
  | c :: rest => pat.isPrefixOf (c :: rest) || hasInfix pat rest

/-- Models the non-literal part `game \d` of the Sports regex: the string
contains `"game "` immediately followed by a decimal digit. -/
def gameDigit : List Char → Bool
  | [] => false
  | c :: rest =>
    ("game ".data.isPrefixOf (c :: rest)
      && (match (c :: rest).drop 5 with
          | d :: _ => d.isDigit
          | [] => false))
    || gameDigit rest

/-- The literal alternatives of each sector's regex in `SECTOR_KEYWORDS`
(analytics.worker.ts lines 18-25), lowercased as written in the source. -/
def sectorKeywords : Sector → List String
  | .Politics => ["trump", "harris", "biden", "election", "senate", "congress",
      "president", "nominee", "democrat", "republican", "vote", "governor",
      "poll", "white house"]
  | .Crypto => ["bitcoin", "btc", "ethereum", "eth", "solana", "sol", "crypto",
      "token", "nft", "blockchain", "coinbase", "binance", "defi",
      "stablecoin", "usdc", "usdt"]
  | .Sports => ["nba", "nfl", "mlb", "nhl", "premier league", "football",
      "basketball", "soccer", "baseball", "hockey", "championship",
      "playoffs", "super bowl", "world cup", "vs."]
  | .Business => ["stock", "ipo", "company", "ceo", "earnings", "merger",
      "acquisition", "nasdaq", "dow", "s&p", "fed", "interest rate",
      "inflation", "gdp", "recession"]
  | .Entertainment => ["movie", "film", "oscar", "grammy", "album",
      "celebrity", "actor", "actress", "music", "concert", "tv show",
      "streaming", "netflix", "disney"]
  | .Other => []

/-- Models `regex.test(marketTitle)` for the sector's case-insensitive pattern:
lowercase the title and look for any keyword as a substring; the Sports
pattern additionally has the `game \d` alternative.  (`Other`'s pattern is
`/.*/`, but the loop in `detectSector` skips it.) -/
def matchesSector (title : String) (s : Sector) : Bool :=
  let lc := title.data.map Char.toLower
  (sectorKeywords s).any (fun kw => hasInfix kw.data lc)
    || (s == .Sports && gameDigit lc)

/-- The `Object.entries(SECTOR_KEYWORDS)` iteration order: the key order of the
record literal. -/
def sectorEntries : List Sector :=
  [.Politics, .Crypto, .Sports, .Business, .Entertainment, .Other]

/-- The `for (const [sector, regex] of Object.entries(SECTOR_KEYWORDS))` loop
body of `detectSector` (analytics.worker.ts lines 29-33): skip `Other`,
return the first sector whose regex matches, else fall through to `Other`. -/
def detectSectorLoop (title : String) : List Sector → Sector
  | [] => .Other
  | s :: rest =>
    if s = .Other then detectSectorLoop title rest
    else if matchesSector title s then s
    else detectSectorLoop title rest

/-- Embedding of `detectSector` (analytics.worker.ts lines 27-34).  A missing or
non-string title (modelled as `none`) maps to `Other`. -/
def detectSector (marketTitle : Option String) : Sector :=
  match marketTitle with
  | none => .Other
  | some t => detectSectorLoop t sectorEntries

-- ═══════════════════════════════════════════════════════════
-- Trade Analysis (analytics.worker.ts lines 40-238)
-- ═══════════════════════════════════════════════════════════

/-- Embedding of `MarketResolutionInfo` (analytics.worker.ts lines 40-45). -/
inductive ResolutionStatus
  | RESOLVED
  | INVALID
  | OPEN
deriving DecidableEq, Repr

structure MarketResolutionInfo where
  conditionId : String
  isClosed : Bool
  winningOutcome : Option String
  resolutionStatus : Option ResolutionStatus
deriving DecidableEq, Repr

/-- Per-sector breakdown entry of the output. -/
structure SBEntry where
  trades : ℕ
  winRate : ℚ
deriving DecidableEq, Repr

/-- Embedding of `TradeAnalysis` (analytics.worker.ts lines 47-56). -/
structure TradeAnalysis where
  winRate : ℚ
  profitFactor : ℚ
  totalVolume : ℚ
  tradeCount : ℕ
  sectorBreakdown : Sector → SBEntry
  specialty : Sector
  recentPnL : ℚ
  volumeHistory : List ℚ

/-- Per-sector running statistics (`sectorStats` entries). -/
structure SectorStat where
  wins : ℕ
  losses : ℕ
  volume : ℚ
deriving DecidableEq, Repr

/-- The mutable accumulators of `analyzeTrades` (lines 66-79). -/
structure AnalysisState where
  sectorStats : Sector → SectorStat
  totalVolume : ℚ
  grossProfit : ℚ
  grossLoss : ℚ
  wins : ℕ
  losses : ℕ

def initState : AnalysisState :=
  { sectorStats := fun _ => ⟨0, 0, 0⟩
    totalVolume := 0
    grossProfit := 0
    grossLoss := 0
    wins := 0
    losses := 0 }

/-- The grouping key `` `${trade.conditionId}-${trade.outcome}` `` (line 84). -/
def tradeKey (t : Trade) : String :=
  t.conditionId ++ "-" ++ t.outcome

/-- One step of the grouping loop (lines 83-89): upsert the trade into the
insertion-ordered map, appending it to its key's list. -/
def insertTrade (groups : List (String × List Trade)) (t : Trade) :
    List (String × List Trade) :=
  if groups.any (fun g => g.1 = tradeKey t) then
    groups.map (fun g => if g.1 = tradeKey t then (g.1, g.2 ++ [t]) else g)
  else
    groups ++ [(tradeKey t, [t])]

/-- The map `tradesByMarket` (lines 82-89): group trades by `conditionId-outcome` key,
in insertion order (JS `Map` semantics). -/
def groupTrades (trades : List Trade) : List (String × List Trade) :=
  trades.foldl insertTrade []

/-- Per-position buy/sell sums (lines 93-111 inner loop).  Each trade's
`usdcAmount` also accrues to `totalVolume` and the sector volume; those
per-group contributions equal `buyValue + sellValue` and are added by
`processGroup`. -/
structure GroupSums where
  buyValue : ℚ
  buyShares : ℚ
  sellValue : ℚ
  sellShares : ℚ
deriving DecidableEq, Repr

def sumGroup (g : List Trade) : GroupSums :=
  g.foldl
    (fun s t =>
      match t.side with
      | .BUY => { s with buyValue := s.buyValue + t.usdcAmount,
                         buyShares := s.buyShares + t.size }
      | .SELL => { s with sellValue := s.sellValue + t.usdcAmount,
                          sellShares := s.sellShares + t.size })
    ⟨0, 0, 0, 0⟩

/-- The updates `wins++; grossProfit += pnl; sectorStats[sector].wins++`. -/
def addWin (sector : Sector) (pnl : ℚ) (st : AnalysisState) : AnalysisState :=
  { st with
    wins := st.wins + 1
    grossProfit := st.grossProfit + pnl
    sectorStats := fun s =>
      if s = sector then
        { st.sectorStats s with wins := (st.sectorStats s).wins + 1 }
      else st.sectorStats s }

/-- The updates `losses++; grossLoss += |pnl|; sectorStats[sector].losses++`. -/
def addLoss (sector : Sector) (pnl : ℚ) (st : AnalysisState) : AnalysisState :=
  { st with
    losses := st.losses + 1
    grossLoss := st.grossLoss + |pnl|
    sectorStats := fun s =>
      if s = sector then
        { st.sectorStats s with losses := (st.sectorStats s).losses + 1 }
      else st.sectorStats s }

/-- Volume accrual for one group: every trade's `usdcAmount` is added to
`totalVolume` and to the group's sector volume (lines 109-110). -/
def volumeStep (sector : Sector) (s : GroupSums) (st : AnalysisState) :
    AnalysisState :=
  let groupVol := s.buyValue + s.sellValue
  { st with
    totalVolume := st.totalVolume + groupVol
    sectorStats := fun sec =>
      if sec = sector then
        { st.sectorStats sec with volume := (st.sectorStats sec).volume + groupVol }
      else st.sectorStats sec }

/-- The realized leg (lines 114-129): matched buy/sell pairs, win iff
`pnl > 0`. -/
def realizedStep (sector : Sector) (s : GroupSums) (st : AnalysisState) :
    AnalysisState :=
  if 0 < s.buyShares ∧ 0 < s.sellShares then
    let avgBuyPrice := s.buyValue / s.buyShares
    let avgSellPrice := s.sellValue / s.sellShares
    let closedShares := min s.buyShares s.sellShares
    let pnl := (avgSellPrice - avgBuyPrice) * closedShares
    if 0 < pnl then addWin sector pnl st else addLoss sector pnl st
  else st

/-- The held leg (lines 131-157): remaining shares are classified only when a
resolution is found with `isClosed` and `resolutionStatus === 'RESOLVED'`;
the `INVALID` branch only warns, so it (like a missing/open resolution)
leaves the counters unchanged. -/
def heldStep (resolutions : List (String × MarketResolutionInfo))
    (t0 : Trade) (sector : Sector) (s : GroupSums) (st : AnalysisState) :
    AnalysisState :=
  let remainingShares := s.buyShares - s.sellShares
  if 0 < remainingShares then
    match resolutions.lookup t0.conditionId with
    | some r =>
      if r.isClosed ∧ r.resolutionStatus = some .RESOLVED then
        let isWinner := r.winningOutcome = some t0.outcome
        let finalPrice : ℚ := if isWinner then 1 else 0
        let avgBuyPrice := s.buyValue / s.buyShares
        let resolutionPnL := (finalPrice - avgBuyPrice) * remainingShares
        if 0 < resolutionPnL then addWin sector resolutionPnL st
        else addLoss sector resolutionPnL st
      else st
    | none => st
  else st

/-- The body of the `for (const [, marketTrades] of tradesByMarket)` loop
(lines 91-158). -/
def processGroup (resolutions : List (String × MarketResolutionInfo))
    (st : AnalysisState) (g : List Trade) : AnalysisState :=
  match g.head? with
  | none => st
  | some t0 =>
    let sector := detectSector (some t0.marketTitle)
    let s := sumGroup g
    heldStep resolutions t0 sector s (realizedStep sector s (volumeStep sector s st))

/-- The accumulator state after all groups are processed. -/
def finalState (trades : List Trade)
    (resolutions : List (String × MarketResolutionInfo)) : AnalysisState :=
  (groupTrades trades).foldl (fun st g => processGroup resolutions st g.2) initState

/-- One day's volume bucket (lines 203-214): trades with
`now - (i+1)·24h ≤ timestamp < now - i·24h`. -/
def dayVolume (trades : List Trade) (now : Int) (i : ℕ) : ℚ :=
  trades.foldl
    (fun acc t =>
      if now - ((i : Int) + 1) * 86400000 ≤ t.timestamp
          ∧ t.timestamp < now - (i : Int) * 86400000
      then acc + t.usdcAmount else acc)
    0

/-- Embedding of `calculateVolumeHistory` (lines 199-218): 7 buckets, oldest first
(`for (let i = 6; i >= 0; i--)`), relative to the ambient clock `now`. -/
def calculateVolumeHistory (trades : List Trade) (now : Int) : List ℚ :=
  [6, 5, 4, 3, 2, 1, 0].map (dayVolume trades now)

/-- Embedding of `getEmptyAnalysis` (lines 220-238). -/
def getEmptyAnalysis : TradeAnalysis :=
  { winRate := 0
    profitFactor := 0
    totalVolume := 0
    tradeCount := 0
    sectorBreakdown := fun _ => ⟨0, 0⟩
    specialty := .Other
    recentPnL := 0
    volumeHistory := [0, 0, 0, 0, 0, 0, 0] }

/-- The specialty scan (lines 167-181): iterate sectors in the record-literal
order, keeping the first sector whose volume strictly exceeds the running
maximum (initially `('Other', 0)`). -/
def specialtyOf (st : AnalysisState) : Sector :=
  (sectorEntries.foldl
    (fun (acc : ℚ × Sector) sec =>
      if acc.1 < (st.sectorStats sec).volume
      then ((st.sectorStats sec).volume, sec) else acc)
    ((0 : ℚ), Sector.Other)).2

/-- Embedding of `analyzeTrades` (analytics.worker.ts lines 58-197).  `Date.now()` is
passed explicitly as `now`. -/
def analyzeTrades (trades : List Trade)
    (resolutions : List (String × MarketResolutionInfo)) (now : Int) :
    TradeAnalysis :=
  if trades = [] then getEmptyAnalysis
  else
    let st := finalState trades resolutions
    let totalTrades := st.wins + st.losses
    let winRate : ℚ :=
      if 0 < totalTrades then ((st.wins : ℚ) / (totalTrades : ℚ)) * 100 else 0
    let profitFactor : ℚ :=
      if 0 < st.grossLoss then st.grossProfit / st.grossLoss
      else if 0 < st.grossProfit then 10 else 0
    { winRate := winRate
      profitFactor := profitFactor
      totalVolume := st.totalVolume
      tradeCount := trades.length
      sectorBreakdown := fun sec =>
        let ss := st.sectorStats sec
        let sectorTotal := ss.wins + ss.losses
        { trades := sectorTotal
          winRate :=
            if 0 < sectorTotal
            then ((ss.wins : ℚ) / (sectorTotal : ℚ)) * 100 else 0 }
      specialty := specialtyOf st
      recentPnL := st.grossProfit - st.grossLoss
      volumeHistory := calculateVolumeHistory trades now }

-- ═══════════════════════════════════════════════════════════
-- Ghost Portfolio Module (src/src/components/ErrorBoundary.tsx,
-- ghost module: getGhostTrades / buildGhostPortfolio)
-- ═══════════════════════════════════════════════════════════

/-- A watched wallet, restricted to the fields the ghost module reads.
`ghostStartedAt` is the parsed epoch-millis of the stored ISO timestamp;
`none` models an absent/falsy value. -/
structure WatchedWallet where
  id : String
  label : String
  ghostMode : Bool
  ghostStartedAt : Option Int
deriving DecidableEq, Repr

/-- Embedding of `getGhostTrades` (ghost module lines 100-112): empty unless ghost mode is
on and a start timestamp exists; otherwise keep exactly the trades with
`tradeTime >= startTime`. -/
def getGhostTrades (wallet : WatchedWallet) (allTrades : List Trade) :
    List Trade :=
  if wallet.ghostMode = false ∨ wallet.ghostStartedAt = none then []
  else
    match wallet.ghostStartedAt with
    | none => []
    | some startTime => allTrades.filter (fun t => startTime ≤ t.timestamp)

/-- Embedding of `GhostPosition` (ghost module lines 118-129). -/
structure GhostPosition where
  conditionId : String
  outcome : String
  marketTitle : String
  sector : Sector
  shares : ℚ
  avgEntryPrice : ℚ
  totalCost : ℚ
  currentValue : ℚ
  unrealizedPnL : ℚ
  trades : List Trade
deriving DecidableEq, Repr

/-- Embedding of `GhostPortfolioSummary` (ghost module lines 131-142). -/
structure GhostPortfolioSummary where
  walletId : String
  walletLabel : String
  ghostStartedAt : Int
  totalInvested : ℚ
  totalReturns : ℚ
  realizedPnL : ℚ
  unrealizedPnL : ℚ
  totalPnL : ℚ
  positions : List GhostPosition
  tradeCount : ℕ
deriving DecidableEq, Repr

/-- The per-key record of `positionMap` (ghost module lines 159-165). -/
structure PosData where
  buys : List Trade
  sells : List Trade
  marketTitle : String
  conditionId : String
  outcome : String
deriving DecidableEq, Repr

def newPosData (t : Trade) : PosData :=
  { buys := [], sells := [], marketTitle := t.marketTitle,
    conditionId := t.conditionId, outcome := t.outcome }

/-- The pushes `pos.buys.push(trade)` / `pos.sells.push(trade)` (lines 180-185). -/
def pushTrade (p : PosData) (t : Trade) : PosData :=
  match t.side with
  | .BUY => { p with buys := p.buys ++ [t] }
  | .SELL => { p with sells := p.sells ++ [t] }

/-- One step of the ghost grouping loop (lines 167-186): create the entry on
first sight of the key (capturing market fields from that trade), then push
the trade into its side list. -/
def insertGhost (m : List (String × PosData)) (t : Trade) :
    List (String × PosData) :=
  let k := tradeKey t
  if m.any (fun p => p.1 = k) then
    m.map (fun p => if p.1 = k then (p.1, pushTrade p.2 t) else p)
  else
    m ++ [(k, pushTrade (newPosData t) t)]

def ghostPositionMap (trades : List Trade) : List (String × PosData) :=
  trades.foldl insertGhost []

/-- The accumulators of the position loop (lines 189-192). -/
structure GhostAcc where
  positions : List GhostPosition
  totalInvested : ℚ
  totalReturns : ℚ
  realizedPnL : ℚ
deriving DecidableEq, Repr

/-- The body of the `for (const [key, data] of positionMap)` loop
(lines 194-232). -/
def processGhostPos (currentPrices : List (String × ℚ)) (acc : GhostAcc)
    (entry : String × PosData) : GhostAcc :=
  let key := entry.1
  let d := entry.2
  let buyShares := d.buys.foldl (fun s t => s + t.size) (0 : ℚ)
  let buyValue := d.buys.foldl (fun s t => s + t.usdcAmount) (0 : ℚ)
  let sellShares := d.sells.foldl (fun s t => s + t.size) (0 : ℚ)
  let sellValue := d.sells.foldl (fun s t => s + t.usdcAmount) (0 : ℚ)
  let remainingShares := buyShares - sellShares
  let avgEntryPrice := if 0 < buyShares then buyValue / buyShares else 0
  let acc1 := { acc with
    totalInvested := acc.totalInvested + buyValue
    totalReturns := acc.totalReturns + sellValue }
  let acc2 :=
    if 0 < sellShares ∧ 0 < buyShares then
      let closedShares := min buyShares sellShares
      let avgSellPrice := sellValue / sellShares
      { acc1 with realizedPnL :=
          acc1.realizedPnL + (avgSellPrice - avgEntryPrice) * closedShares }
    else acc1
  let currentPrice := (currentPrices.lookup key).getD avgEntryPrice
  let currentValue := remainingShares * currentPrice
  let unrealizedPnL := currentValue - remainingShares * avgEntryPrice
  if 0 < remainingShares ∨ 0 < sellShares then
    { acc2 with positions := acc2.positions ++
        [{ conditionId := d.conditionId
           outcome := d.outcome
           marketTitle := d.marketTitle
           sector := detectSector (some d.marketTitle)
           shares := remainingShares
           avgEntryPrice := avgEntryPrice
           totalCost := remainingShares * avgEntryPrice
           currentValue := currentValue
           unrealizedPnL := unrealizedPnL
           trades := d.buys ++ d.sells }] }
  else acc2

/-- Embedding of `getEmptyGhostPortfolio` (lines 250-263); `now` models the
`new Date().toISOString()` fallback. -/
def getEmptyGhostPortfolio (wallet : WatchedWallet) (now : Int) :
    GhostPortfolioSummary :=
  { walletId := wallet.id
    walletLabel := wallet.label
    ghostStartedAt := wallet.ghostStartedAt.getD now
    totalInvested := 0
    totalReturns := 0
    realizedPnL := 0
    unrealizedPnL := 0
    totalPnL := 0
    positions := []
    tradeCount := 0 }

/-- Embedding of `buildGhostPortfolio` (ghost module lines 147-248). -/
def buildGhostPortfolio (wallet : WatchedWallet) (trades : List Trade)
    (currentPrices : List (String × ℚ)) (now : Int) : GhostPortfolioSummary :=
  let ghostTrades := getGhostTrades wallet trades
  match wallet.ghostStartedAt with
  | none => getEmptyGhostPortfolio wallet now
  | some g =>
    let pm := ghostPositionMap ghostTrades
    let acc := pm.foldl (processGhostPos currentPrices) ⟨[], 0, 0, 0⟩
    let unrealizedPnL := acc.positions.foldl (fun s p => s + p.unrealizedPnL) 0
    { walletId := wallet.id
      walletLabel := wallet.label
      ghostStartedAt := g
      totalInvested := acc.totalInvested
      totalReturns := acc.totalReturns
      realizedPnL := acc.realizedPnL
      unrealizedPnL := unrealizedPnL
      totalPnL := acc.realizedPnL + unrealizedPnL
      positions := acc.positions
      tradeCount := ghostTrades.length }

-- ═══════════════════════════════════════════════════════════
-- Validation Layer (src/src/lib/validation.ts lines 15-90)
-- ═══════════════════════════════════════════════════════════

/-- A raw API record before validation.  `none` in a field models a missing
or wrongly-typed value; `timestamp` is the parse result of the timestamp
string (`none` when `new Date(val).getTime()` is `NaN`). -/
structure RawTrade where
  conditionId : Option String
  marketSlug : Option String
  marketTitle : Option String
  price : Option ℚ
  timestamp : Option Int
  outcome : Option String
  side : Option String
  size : Option ℚ
  usdcAmount : Option ℚ
deriving DecidableEq, Repr

/-- Embedding of `TradeSchema.safeParse` (validation.ts lines 15-37): all required fields
present, `price ∈ [0,1]`, timestamp parsed and at most 60s (60000 ms) in the
future, `side ∈ {BUY, SELL}`, `size ≥ 0`, `usdcAmount ≥ 0`.  Returns the
typed trade on success.  (The schema also carries `marketSlug`, which the
analytics `Trade` model does not retain.) -/
def validateTrade (now : Int) (r : RawTrade) : Option Trade := do
  let cid ← r.conditionId
  let _slug ← r.marketSlug
  let mt ← r.marketTitle
  let p ← r.price
  let ts ← r.timestamp
  let oc ← r.outcome
  let sd ← r.side
  let sz ← r.size
  let usdc ← r.usdcAmount
  if 0 ≤ p ∧ p ≤ 1 ∧ ts ≤ now + 60000 ∧ (sd = "BUY" ∨ sd = "SELL")
      ∧ 0 ≤ sz ∧ 0 ≤ usdc then
    some { conditionId := cid
           marketTitle := mt
           outcome := oc
           side := if sd = "BUY" then .BUY else .SELL
           size := sz
           price := p
           usdcAmount := usdc
           timestamp := ts }
  else none

/-- Embedding of `safeParseTrades` (validation.ts lines 68-90): keep each record that
parses, drop the rest individually. -/
def safeParseTrades (now : Int) (apiResponse : List RawTrade) : List Trade :=
  apiResponse.filterMap (validateTrade now)

-- ═══════════════════════════════════════════════════════════
-- Theorems
-- ═══════════════════════════════════════════════════════════

/-- Claim C1: for every non-empty trade list, `analyzeTrades` returns
`winRate = wins / (wins + losses) × 100` when at least one position is
decided, and `0` (not 50) when no position is decided. -/
theorem analyzeTrades_winRate_spec (trades : List Trade)
    (resolutions : List (String × MarketResolutionInfo)) (now : Int)
    (hne : trades ≠ []) :
    (0 < (finalState trades resolutions).wins + (finalState trades resolutions).losses →
      (analyzeTrades trades resolutions now).winRate
        = (((finalState trades resolutions).wins : ℚ)
            / (((finalState trades resolutions).wins
                + (finalState trades resolutions).losses : ℕ) : ℚ)) * 100)
    ∧ ((finalState trades resolutions).wins + (finalState trades resolutions).losses = 0 →
      (analyzeTrades trades resolutions now).winRate = 0) := by
  constructor
  · intro h
    simp [analyzeTrades, hne, h]
  · intro h
    simp [analyzeTrades, hne, h]

/-- Concrete instance of `analyzeTrades_winRate_spec`: one matched
buy/sell pair yields one decided (winning) position, hence a 100% win
rate through the formula. -/
theorem analyzeTrades_winRate_spec_witness :
    (analyzeTrades
        [{ conditionId := "c", marketTitle := "m", outcome := "YES",
           side := .BUY, size := 10, price := 2/5, usdcAmount := 4, timestamp := 0 },
         { conditionId := "c", marketTitle := "m", outcome := "YES",
           side := .SELL, size := 10, price := 3/5, usdcAmount := 6, timestamp := 0 }]
        [] 0).winRate
      = (((finalState
            [{ conditionId := "c", marketTitle := "m", outcome := "YES",
               side := .BUY, size := 10, price := 2/5, usdcAmount := 4, timestamp := 0 },
             { conditionId := "c", marketTitle := "m", outcome := "YES",
               side := .SELL, size := 10, price := 3/5, usdcAmount := 6, timestamp := 0 }]
            []).wins : ℚ)
          / (((finalState
            [{ conditionId := "c", marketTitle := "m", outcome := "YES",
               side := .BUY, size := 10, price := 2/5, usdcAmount := 4, timestamp := 0 },
             { conditionId := "c", marketTitle := "m", outcome := "YES",
               side := .SELL, size := 10, price := 3/5, usdcAmount := 6, timestamp := 0 }]
            []).wins
              + (finalState
            [{ conditionId := "c", marketTitle := "m", outcome := "YES",
               side := .BUY, size := 10, price := 2/5, usdcAmount := 4, timestamp := 0 },
             { conditionId := "c", marketTitle := "m", outcome := "YES",
               side := .SELL, size := 10, price := 3/5, usdcAmount := 6, timestamp := 0 }]
            []).losses : ℕ) : ℚ)) * 100 :=
  (analyzeTrades_winRate_spec _ _ 0 (by simp)).1 (by with_unfolding_all decide)

/-- Claim C4: `profitFactor = grossProfit / grossLoss` when `grossLoss > 0`,
else `10` when `grossProfit > 0`, else `0`.  (Stated for all inputs; the
empty-list result `0` agrees with the formula since both gross sums are
then zero.) -/
theorem analyzeTrades_profitFactor_spec (trades : List Trade)
    (resolutions : List (String × MarketResolutionInfo)) (now : Int) :
    (analyzeTrades trades resolutions now).profitFactor
      = (if 0 < (finalState trades resolutions).grossLoss then
          (finalState trades resolutions).grossProfit
            / (finalState trades resolutions).grossLoss
        else if 0 < (finalState trades resolutions).grossProfit then 10
        else 0) := by
  by_cases hne : trades = []
  · subst hne
    simp [analyzeTrades, getEmptyAnalysis, finalState, groupTrades, initState]
  · simp [analyzeTrades, hne]

/-- Claim C2: the held leg of a position group with remaining shares is
counted as a win or a loss exactly when the looked-up resolution has
`isClosed` and status `RESOLVED`, with final price 1 iff the group's
outcome equals `winningOutcome` and
`resolutionPnL = (finalPrice - avgBuyPrice) × remainingShares`;
a missing, unresolved, or `INVALID` resolution leaves the win/loss
counters and gross sums unchanged. -/
theorem heldStep_resolution_spec
    (resolutions : List (String × MarketResolutionInfo)) (t0 : Trade)
    (sector : Sector) (s : GroupSums) (st : AnalysisState)
    (hrem : 0 < s.buyShares - s.sellShares) :
    (∀ r, resolutions.lookup t0.conditionId = some r →
      r.isClosed = true → r.resolutionStatus = some .RESOLVED →
      heldStep resolutions t0 sector s st
        = (if 0 < ((if r.winningOutcome = some t0.outcome then (1:ℚ) else 0)
                - s.buyValue / s.buyShares) * (s.buyShares - s.sellShares)
          then addWin sector
            (((if r.winningOutcome = some t0.outcome then (1:ℚ) else 0)
                - s.buyValue / s.buyShares) * (s.buyShares - s.sellShares)) st
          else addLoss sector
            (((if r.winningOutcome = some t0.outcome then (1:ℚ) else 0)
                - s.buyValue / s.buyShares) * (s.buyShares - s.sellShares)) st))
    ∧ (∀ r, resolutions.lookup t0.conditionId = some r →
      ¬(r.isClosed = true ∧ r.resolutionStatus = some .RESOLVED) →
      heldStep resolutions t0 sector s st = st)
    ∧ (resolutions.lookup t0.conditionId = none →
      heldStep resolutions t0 sector s st = st)
    ∧ (∀ p, (addWin sector p st).wins = st.wins + 1
        ∧ (addWin sector p st).losses = st.losses
        ∧ (addWin sector p st).grossProfit = st.grossProfit + p)
    ∧ (∀ p, (addLoss sector p st).losses = st.losses + 1
        ∧ (addLoss sector p st).wins = st.wins
        ∧ (addLoss sector p st).grossLoss = st.grossLoss + |p|) := by
  refine ⟨?_, ?_, ?_, ?_, ?_⟩
  · intro r hr hclosed hstatus
    simp [heldStep, hrem, hr, hclosed, hstatus]
  · intro r hr hnot
    simp only [heldStep, if_pos hrem, hr]
    rw [if_neg]
    exact fun hc => hnot ⟨hc.1, hc.2⟩
  · intro hr
    simp [heldStep, hrem, hr]
  · intro p
    exact ⟨rfl, rfl, rfl⟩
  · intro p
    exact ⟨rfl, rfl, rfl⟩

/-- Concrete instance of `heldStep_resolution_spec`: a held group of
100 shares bought at average price 0.3, resolved against the held
outcome, is recorded as a loss of magnitude 30. -/
theorem heldStep_resolution_spec_witness :
    heldStep
        [("c", { conditionId := "c", isClosed := true,
                 winningOutcome := some "NO",
                 resolutionStatus := some .RESOLVED })]
        { conditionId := "c", marketTitle := "m", outcome := "YES",
          side := .BUY, size := 100, price := 3/10, usdcAmount := 30, timestamp := 0 }
        .Other ⟨30, 100, 0, 0⟩ initState
      = addLoss .Other (-30) initState := by
  have h := (heldStep_resolution_spec
    [("c", { conditionId := "c", isClosed := true,
             winningOutcome := some "NO",
             resolutionStatus := some .RESOLVED })]
    { conditionId := "c", marketTitle := "m", outcome := "YES",
      side := .BUY, size := 100, price := 3/10, usdcAmount := 30, timestamp := 0 }
    .Other ⟨30, 100, 0, 0⟩ initState (by norm_num)).1
    { conditionId := "c", isClosed := true, winningOutcome := some "NO",
      resolutionStatus := some .RESOLVED }
    (by with_unfolding_all decide) rfl rfl
  rw [h]
  simp

/-- Claim C7: `detectSector` maps missing input to `Other` and otherwise
returns the first matching sector in the fixed precedence order
Politics, Crypto, Sports, Business, Entertainment (with `Other` when none
match); in particular the example title matches both a Politics and a
Sports keyword yet classifies as Politics. -/
theorem detectSector_precedence_spec :
    detectSector none = .Other
    ∧ (∀ title : String,
        detectSector (some title)
          = (([Sector.Politics, .Crypto, .Sports, .Business, .Entertainment].find?
                (fun s => matchesSector title s)).getD .Other))
    ∧ detectSector (some "Will the President attend the Super Bowl?") = .Politics
    ∧ matchesSector "Will the President attend the Super Bowl?" .Politics = true
    ∧ matchesSector "Will the President attend the Super Bowl?" .Sports = true := by
  refine ⟨rfl, ?_, by decide, by decide, by decide⟩
  intro title
  simp only [detectSector, sectorEntries, detectSectorLoop, List.find?]
  cases hP : matchesSector title .Politics <;>
    cases hC : matchesSector title .Crypto <;>
      cases hS : matchesSector title .Sports <;>
        cases hB : matchesSector title .Business <;>
          cases hE : matchesSector title .Entertainment <;>
            simp [hP, hC, hS, hB, hE]

/-- Claim C9 (amended): every field of the `analyzeTrades` output except
`volumeHistory` is independent of the ambient clock reading; with the clock
fixed, the function is pure. -/
theorem analyzeTrades_clock_determinism (trades : List Trade)
    (resolutions : List (String × MarketResolutionInfo)) (n₁ n₂ : Int) :
    (analyzeTrades trades resolutions n₁).winRate
        = (analyzeTrades trades resolutions n₂).winRate
    ∧ (analyzeTrades trades resolutions n₁).profitFactor
        = (analyzeTrades trades resolutions n₂).profitFactor
    ∧ (analyzeTrades trades resolutions n₁).totalVolume
        = (analyzeTrades trades resolutions n₂).totalVolume
    ∧ (analyzeTrades trades resolutions n₁).tradeCount
        = (analyzeTrades trades resolutions n₂).tradeCount
    ∧ (analyzeTrades trades resolutions n₁).sectorBreakdown
        = (analyzeTrades trades resolutions n₂).sectorBreakdown
    ∧ (analyzeTrades trades resolutions n₁).specialty
        = (analyzeTrades trades resolutions n₂).specialty
    ∧ (analyzeTrades trades resolutions n₁).recentPnL
        = (analyzeTrades trades resolutions n₂).recentPnL := by
  by_cases h : trades = [] <;>
    simp [analyzeTrades, h]

/-- Claim C9 counterexample: with identical trades and resolutions, two
clock readings one millisecond apart produce different `volumeHistory`
buckets, so the output is not a function of trades and resolutions alone. -/
theorem analyzeTrades_clock_counterexample :
    (analyzeTrades
        [{ conditionId := "c", marketTitle := "m", outcome := "YES",
           side := .BUY, size := 10, price := 2/5, usdcAmount := 4, timestamp := 0 }]
        [] 0).volumeHistory
      ≠ (analyzeTrades
        [{ conditionId := "c", marketTitle := "m", outcome := "YES",
           side := .BUY, size := 10, price := 2/5, usdcAmount := 4, timestamp := 0 }]
        [] 1).volumeHistory := by
  with_unfolding_all decide

/-- The function `buildGhostPortfolio` reads its trades argument only through
`getGhostTrades`. -/
theorem buildGhostPortfolio_congr (wallet : WatchedWallet)
    (tr₁ tr₂ : List Trade) (prices : List (String × ℚ)) (now : Int)
    (h : getGhostTrades wallet tr₁ = getGhostTrades wallet tr₂) :
    buildGhostPortfolio wallet tr₁ prices now
      = buildGhostPortfolio wallet tr₂ prices now := by
  unfold buildGhostPortfolio
  rw [h]

/-- Claim C5: with ghost mode on and a start timestamp `g`, the ghost trade
list contains exactly the trades with `timestamp ≥ g` (a trade exactly at
`g` included, any strictly earlier one excluded), and discarding the
strictly-earlier trades from the input leaves every `buildGhostPortfolio`
figure unchanged. -/
theorem ghost_filter_boundary_spec (wallet : WatchedWallet)
    (trades : List Trade) (prices : List (String × ℚ)) (now g : Int)
    (hmode : wallet.ghostMode = true) (hstart : wallet.ghostStartedAt = some g) :
    (∀ t : Trade, t ∈ getGhostTrades wallet trades
        ↔ (t ∈ trades ∧ g ≤ t.timestamp))
    ∧ buildGhostPortfolio wallet
          (trades.filter (fun t => g ≤ t.timestamp)) prices now
        = buildGhostPortfolio wallet trades prices now := by
  constructor
  · intro t
    simp [getGhostTrades, hmode, hstart, List.mem_filter]
  · refine buildGhostPortfolio_congr wallet _ _ prices now ?_
    simp only [getGhostTrades, hmode, hstart]
    simp [List.filter_filter]

/-- Concrete instance of `ghost_filter_boundary_spec`: with
`ghostStartedAt = 1000`, a trade at timestamp 1000 is kept and a trade at
timestamp 999 is dropped from the ghost trade list. -/
theorem ghost_filter_boundary_spec_witness :
    ((⟨"c", "m", "YES", .BUY, 1, 1, 1, 1000⟩ : Trade)
        ∈ getGhostTrades ⟨"w", "l", true, some 1000⟩
            [⟨"c", "m", "YES", .BUY, 1, 1, 1, 1000⟩,
             ⟨"c", "m", "YES", .BUY, 1, 1, 1, 999⟩])
    ∧ ¬((⟨"c", "m", "YES", .BUY, 1, 1, 1, 999⟩ : Trade)
        ∈ getGhostTrades ⟨"w", "l", true, some 1000⟩
            [⟨"c", "m", "YES", .BUY, 1, 1, 1, 1000⟩,
             ⟨"c", "m", "YES", .BUY, 1, 1, 1, 999⟩]) := by
  have h := ghost_filter_boundary_spec ⟨"w", "l", true, some 1000⟩
    [⟨"c", "m", "YES", .BUY, 1, 1, 1, 1000⟩,
     ⟨"c", "m", "YES", .BUY, 1, 1, 1, 999⟩]
    [] 0 1000 rfl rfl
  constructor
  · exact (h.1 _).mpr ⟨by simp, by norm_num⟩
  · intro hmem
    have := ((h.1 _).mp hmem).2
    norm_num at this

-- ═══════════════════════════════════════════════════════════
-- Claim C3: exact decimal accumulation
-- ═══════════════════════════════════════════════════════════

theorem addWin_totalVolume (sector : Sector) (p : ℚ) (st : AnalysisState) :
    (addWin sector p st).totalVolume = st.totalVolume := rfl

theorem addLoss_totalVolume (sector : Sector) (p : ℚ) (st : AnalysisState) :
    (addLoss sector p st).totalVolume = st.totalVolume := rfl

theorem realizedStep_totalVolume (sector : Sector) (s : GroupSums)
    (st : AnalysisState) :
    (realizedStep sector s st).totalVolume = st.totalVolume := by
  unfold realizedStep
  dsimp only
  repeat' split
  all_goals rfl

theorem heldStep_totalVolume (resolutions : List (String × MarketResolutionInfo))
    (t0 : Trade) (sector : Sector) (s : GroupSums) (st : AnalysisState) :
    (heldStep resolutions t0 sector s st).totalVolume = st.totalVolume := by
  unfold heldStep
  dsimp only
  repeat' split
  all_goals rfl

theorem volumeStep_totalVolume (sector : Sector) (s : GroupSums)
    (st : AnalysisState) :
    (volumeStep sector s st).totalVolume
      = st.totalVolume + (s.buyValue + s.sellValue) := rfl

theorem processGroup_totalVolume
    (resolutions : List (String × MarketResolutionInfo))
    (st : AnalysisState) (g : List Trade) :
    (processGroup resolutions st g).totalVolume
      = (match g.head? with
        | none => st.totalVolume
        | some _ => st.totalVolume + ((sumGroup g).buyValue + (sumGroup g).sellValue)) := by
  unfold processGroup
  cases g.head? with
  | none => rfl
  | some t0 =>
    simp only [heldStep_totalVolume, realizedStep_totalVolume, volumeStep_totalVolume]

/-- Grouping a run of trades that all share the key `k`, starting from a map
that already holds that single key, keeps a single entry and appends. -/
theorem foldl_insertTrade_const (k : String) (rest : List Trade) :
    ∀ acc : List Trade, (∀ t ∈ rest, tradeKey t = k) →
      List.foldl insertTrade [(k, acc)] rest = [(k, acc ++ rest)] := by
  induction rest with
  | nil => intro acc _; simp
  | cons t ts ih =>
    intro acc h
    have hk : tradeKey t = k := h t (List.mem_cons_self t ts)
    have hstep : insertTrade [(k, acc)] t = [(k, acc ++ [t])] := by
      simp [insertTrade, hk]
    simp only [List.foldl_cons, hstep]
    rw [ih (acc ++ [t]) (fun t' ht' => h t' (List.mem_cons_of_mem t ht'))]
    simp

/-- A non-empty trade list whose trades all share the key `k` groups into a
single position. -/
theorem groupTrades_const (k : String) (trades : List Trade)
    (hne : trades ≠ []) (h : ∀ t ∈ trades, tradeKey t = k) :
    groupTrades trades = [(k, trades)] := by
  cases trades with
  | nil => exact absurd rfl hne
  | cons t ts =>
    have hk : tradeKey t = k := h t (List.mem_cons_self t ts)
    have hstep : insertTrade [] t = [(k, [t])] := by
      simp [insertTrade, hk]
    unfold groupTrades
    simp only [List.foldl_cons, hstep]
    rw [foldl_insertTrade_const k ts [t]
      (fun t' ht' => h t' (List.mem_cons_of_mem t ht'))]
    rfl

/-- Summing a replicated BUY fill accumulates `n` copies of its amount and
size, with the sell side untouched. -/
theorem sumGroup_replicate_buy (t : Trade) (ht : t.side = .BUY) (n : ℕ) :
    sumGroup (List.replicate n t)
      = ⟨n * t.usdcAmount, n * t.size, 0, 0⟩ := by
  have key : ∀ (m : ℕ) (s : GroupSums),
      List.foldl
        (fun s t =>
          match t.side with
          | .BUY => { s with buyValue := s.buyValue + t.usdcAmount,
                             buyShares := s.buyShares + t.size }
          | .SELL => { s with sellValue := s.sellValue + t.usdcAmount,
                              sellShares := s.sellShares + t.size })
        s (List.replicate m t)
      = { s with buyValue := s.buyValue + m * t.usdcAmount,
                 buyShares := s.buyShares + m * t.size } := by
    intro m
    induction m with
    | zero => intro s; simp
    | succ m ih =>
      intro s
      rw [List.replicate_succ, List.foldl_cons, ht]
      rw [ih]
      congr 1 <;> push_cast <;> ring
  unfold sumGroup
  rw [key n ⟨0, 0, 0, 0⟩]
  simp

/-- For a non-empty trade list the reported `totalVolume` is the accumulated
volume of the final analysis state. -/
theorem analyzeTrades_totalVolume_eq (trades : List Trade)
    (resolutions : List (String × MarketResolutionInfo)) (now : Int)
    (hne : trades ≠ []) :
    (analyzeTrades trades resolutions now).totalVolume
      = (finalState trades resolutions).totalVolume := by
  simp [analyzeTrades, hne]

/-- The decimal-exactness test fill of spec §8: `size = 1`, `price = 0.1`,
notional `0.1`. -/
def dimeTrade : Trade :=
  { conditionId := "c", marketTitle := "m", outcome := "YES",
    side := .BUY, size := 1, price := 1/10, usdcAmount := 1/10, timestamp := 0 }

theorem replicate_dimeTrade_ne_nil : List.replicate 1000 dimeTrade ≠ [] := by
  intro h
  have hlen := congrArg List.length h
  rw [List.length_replicate, List.length_nil] at hlen
  omega

theorem replicate_dimeTrade_groups :
    groupTrades (List.replicate 1000 dimeTrade)
      = [("c-YES", List.replicate 1000 dimeTrade)] :=
  groupTrades_const "c-YES" _ replicate_dimeTrade_ne_nil
    (fun t ht => by rw [List.eq_of_mem_replicate ht]; rfl)

/-- Claim C3: summing 1000 trades of notional 0.1 each yields a total volume
of exactly 100 — the accumulation is exact decimal arithmetic with no
binary floating-point drift. -/
theorem analyzeTrades_decimal_exact_1000 :
    (analyzeTrades (List.replicate 1000 dimeTrade) [] 0).totalVolume = 100 := by
  rw [analyzeTrades_totalVolume_eq _ _ _ replicate_dimeTrade_ne_nil]
  unfold finalState
  rw [replicate_dimeTrade_groups]
  simp only [List.foldl_cons, List.foldl_nil]
  rw [processGroup_totalVolume]
  rw [sumGroup_replicate_buy dimeTrade rfl 1000]
  simp only [List.head?_replicate]
  norm_num [initState, dimeTrade]

-- ═══════════════════════════════════════════════════════════
-- Claim C8: validation layer
-- ═══════════════════════════════════════════════════════════

/-- A record accepted by the schema satisfies every field constraint. -/
theorem validateTrade_some_constraints (now : Int) (r : RawTrade) (t : Trade)
    (hv : validateTrade now r = some t) :
    0 ≤ t.price ∧ t.price ≤ 1 ∧ 0 ≤ t.size ∧ 0 ≤ t.usdcAmount
      ∧ t.timestamp ≤ now + 60000 := by
  simp only [validateTrade, bind, Option.bind_eq_some] at hv
  obtain ⟨cid, -, slug, -, mt, -, p, -, ts, -, oc, -, sd, -, sz, -, usdc, -, hv⟩ := hv
  split_ifs at hv with hcond
  all_goals
    obtain ⟨h1, h2, h3, -, h5, h6⟩ := hcond
  all_goals
    cases hv
  all_goals
    exact ⟨h1, h2, h5, h6, h3⟩

/-- Claim C8: `safeParseTrades` retains exactly the schema-valid records, in
order: every returned trade satisfies the price/size/amount/timestamp
constraints, a single invalid record is dropped without affecting the rest
of the batch, and every record that validates is kept. -/
theorem safeParseTrades_spec (now : Int) :
    (∀ (rs : List RawTrade) (t : Trade), t ∈ safeParseTrades now rs →
        0 ≤ t.price ∧ t.price ≤ 1 ∧ 0 ≤ t.size ∧ 0 ≤ t.usdcAmount
          ∧ t.timestamp ≤ now + 60000)
    ∧ (∀ (rs₁ rs₂ : List RawTrade) (bad : RawTrade),
        validateTrade now bad = none →
        safeParseTrades now (rs₁ ++ bad :: rs₂)
          = safeParseTrades now rs₁ ++ safeParseTrades now rs₂)
    ∧ (∀ (rs : List RawTrade) (r : RawTrade) (t : Trade), r ∈ rs →
        validateTrade now r = some t → t ∈ safeParseTrades now rs) := by
  refine ⟨?_, ?_, ?_⟩
  · intro rs t ht
    rw [safeParseTrades, List.mem_filterMap] at ht
    obtain ⟨r, -, hv⟩ := ht
    exact validateTrade_some_constraints now r t hv
  · intro rs₁ rs₂ bad hbad
    simp [safeParseTrades, List.filterMap_append, List.filterMap_cons, hbad]
  · intro rs r t hr hv
    rw [safeParseTrades, List.mem_filterMap]
    exact ⟨r, hr, hv⟩

/-- Concrete instance of `safeParseTrades_spec`: a record with `price = 1.5`
between two valid records is dropped individually — the batch survives and
equals the concatenation of the two valid parses. -/
theorem safeParseTrades_spec_witness :
    safeParseTrades 0
        [⟨some "a", some "s", some "m", some (1/2), some 0, some "YES",
          some "BUY", some 1, some (1/2)⟩,
         ⟨some "b", some "s", some "m", some (3/2), some 0, some "YES",
          some "BUY", some 1, some (3/2)⟩,
         ⟨some "c", some "s", some "m", some (1/2), some 0, some "YES",
          some "SELL", some 2, some 1⟩]
      = safeParseTrades 0
          [⟨some "a", some "s", some "m", some (1/2), some 0, some "YES",
            some "BUY", some 1, some (1/2)⟩]
        ++ safeParseTrades 0
          [⟨some "c", some "s", some "m", some (1/2), some 0, some "YES",
            some "SELL", some 2, some 1⟩] :=
  (safeParseTrades_spec 0).2.1
    [⟨some "a", some "s", some "m", some (1/2), some 0, some "YES",
      some "BUY", some 1, some (1/2)⟩]
    [⟨some "c", some "s", some "m", some (1/2), some 0, some "YES",
      some "SELL", some 2, some 1⟩]
    ⟨some "b", some "s", some "m", some (3/2), some 0, some "YES",
      some "BUY", some 1, some (3/2)⟩
    (by with_unfolding_all decide)

-- ═══════════════════════════════════════════════════════════
-- Claim C6: grouping key
-- ═══════════════════════════════════════════════════════════

/-- Proposition that `t1` and `t2` land in the same position group of `analyzeTrades`. -/
def sameGroup (trades : List Trade) (t1 t2 : Trade) : Prop :=
  ∃ k g, (k, g) ∈ groupTrades trades ∧ t1 ∈ g ∧ t2 ∈ g

/-- Well-formedness of the grouping map with respect to the trades consumed
so far: every stored trade comes from the input and sits under its own key,
every consumed trade is stored under its key, and keys are unique. -/
def GroupsWF (groups : List (String × List Trade)) (seen : List Trade) : Prop :=
  (∀ k g, (k, g) ∈ groups → ∀ t ∈ g, t ∈ seen ∧ tradeKey t = k)
  ∧ (∀ t ∈ seen, ∃ g, (tradeKey t, g) ∈ groups ∧ t ∈ g)
  ∧ (groups.map Prod.fst).Nodup

theorem insertTrade_wf (groups : List (String × List Trade))
    (seen : List Trade) (t : Trade) (h : GroupsWF groups seen) :
    GroupsWF (insertTrade groups t) (seen ++ [t]) := by
  obtain ⟨hs, hc, hn⟩ := h
  unfold insertTrade
  by_cases hany : groups.any (fun g => g.1 = tradeKey t)
  · rw [if_pos hany]
    refine ⟨?_, ?_, ?_⟩
    · intro k g hkg t' ht'
      rw [List.mem_map] at hkg
      obtain ⟨⟨k0, g0⟩, hk0, heq⟩ := hkg
      by_cases hk : k0 = tradeKey t
      · simp only [hk, if_pos rfl] at heq
        obtain ⟨rfl, rfl⟩ := Prod.mk.injEq .. ▸ heq
        rcases List.mem_append.mp ht' with h' | h'
        · obtain ⟨hmem, hkey⟩ := hs _ g0 (hk ▸ hk0) t' h'
          exact ⟨List.mem_append_left _ hmem, hkey⟩
        · rw [List.mem_singleton] at h'
          subst h'
          exact ⟨List.mem_append_right _ (by simp), rfl⟩
      · simp only [if_neg hk] at heq
        obtain ⟨rfl, rfl⟩ := Prod.mk.injEq .. ▸ heq
        obtain ⟨hmem, hkey⟩ := hs k0 g0 hk0 t' ht'
        exact ⟨List.mem_append_left _ hmem, hkey⟩
    · intro t' ht'
      rcases List.mem_append.mp ht' with h' | h'
      · obtain ⟨g0, hg0, hmem⟩ := hc t' h'
        by_cases h'' : tradeKey t' = tradeKey t
        · refine ⟨g0 ++ [t], ?_, List.mem_append_left _ hmem⟩
          rw [List.mem_map]
          exact ⟨(tradeKey t', g0), hg0, by simp [h'']⟩
        · refine ⟨g0, ?_, hmem⟩
          rw [List.mem_map]
          exact ⟨(tradeKey t', g0), hg0, by simp [h'']⟩
      · rw [List.mem_singleton] at h'
        subst h'
        rw [List.any_eq_true] at hany
        obtain ⟨⟨k0, g0⟩, hk0, hkeq⟩ := hany
        have hk0eq : k0 = tradeKey t' := by simpa using hkeq
        refine ⟨g0 ++ [t'], ?_, List.mem_append_right _ (by simp)⟩
        rw [List.mem_map]
        exact ⟨(k0, g0), hk0, by simp [hk0eq]⟩
    · have hmapfst :
          (groups.map (fun g => if g.1 = tradeKey t then (g.1, g.2 ++ [t]) else g)).map
              Prod.fst
            = groups.map Prod.fst := by
        rw [List.map_map]
        refine List.map_congr_left ?_
        intro g _
        by_cases h'' : g.1 = tradeKey t <;> simp [h'']
      rw [hmapfst]
      exact hn
  · rw [if_neg hany]
    have hnotin : tradeKey t ∉ groups.map Prod.fst := by
      intro hmem
      rw [List.mem_map] at hmem
      obtain ⟨p, hp, hpk⟩ := hmem
      rw [List.any_eq_true] at hany
      exact hany ⟨p, hp, by simp [hpk]⟩
    refine ⟨?_, ?_, ?_⟩
    · intro k g hkg t' ht'
      rcases List.mem_append.mp hkg with h' | h'
      · obtain ⟨hmem, hkey⟩ := hs k g h' t' ht'
        exact ⟨List.mem_append_left _ hmem, hkey⟩
      · rw [List.mem_singleton] at h'
        obtain ⟨rfl, rfl⟩ := Prod.mk.injEq .. ▸ h'
        rw [List.mem_singleton] at ht'
        subst ht'
        exact ⟨List.mem_append_right _ (by simp), rfl⟩
    · intro t' ht'
      rcases List.mem_append.mp ht' with h' | h'
      · obtain ⟨g0, hg0, hmem⟩ := hc t' h'
        exact ⟨g0, List.mem_append_left _ hg0, hmem⟩
      · rw [List.mem_singleton] at h'
        subst h'
        exact ⟨[t'], List.mem_append_right _ (by simp), by simp⟩
    · rw [List.map_append]
      rw [List.nodup_append]
      exact ⟨hn, by simp, by
        intro a ha hb
        simp only [List.map_cons, List.map_nil, List.mem_singleton] at hb
        exact hnotin (hb ▸ ha)⟩

theorem foldl_insertTrade_wf (rest : List Trade) :
    ∀ (groups : List (String × List Trade)) (seen : List Trade),
      GroupsWF groups seen →
      GroupsWF (List.foldl insertTrade groups rest) (seen ++ rest) := by
  induction rest with
  | nil => intro groups seen h; simpa using h
  | cons t ts ih =>
    intro groups seen h
    rw [List.foldl_cons]
    have h2 := ih (insertTrade groups t) (seen ++ [t]) (insertTrade_wf groups seen t h)
    simpa using h2

theorem groupTrades_wf (trades : List Trade) :
    GroupsWF (groupTrades trades) trades := by
  have h := foldl_insertTrade_wf trades [] []
    ⟨by simp, by simp, by simp⟩
  simpa using h

theorem nodup_keys_unique (l : List (String × List Trade)) :
    ∀ (k : String) (a b : List Trade), (l.map Prod.fst).Nodup →
      (k, a) ∈ l → (k, b) ∈ l → a = b := by
  induction l with
  | nil => simp
  | cons p ps ih =>
    intro k a b hn ha hb
    rw [List.map_cons, List.nodup_cons] at hn
    rcases List.mem_cons.mp ha with h1 | h1 <;> rcases List.mem_cons.mp hb with h2 | h2
    · rw [← h1] at h2
      exact (Prod.mk.injEq .. ▸ h2.symm).2
    · exfalso
      apply hn.1
      rw [List.mem_map]
      refine ⟨(k, b), h2, ?_⟩
      obtain ⟨rfl, -⟩ := Prod.mk.injEq .. ▸ h1.symm
      rfl
    · exfalso
      apply hn.1
      rw [List.mem_map]
      refine ⟨(k, a), h1, ?_⟩
      obtain ⟨rfl, -⟩ := Prod.mk.injEq .. ▸ h2.symm
      rfl
    · exact ih k a b hn.2 h1 h2

/-- All trades stored in a ghost position record. -/
def posTrades (d : PosData) : List Trade := d.buys ++ d.sells

theorem mem_posTrades_pushTrade {t' : Trade} (d : PosData) (t : Trade)
    (h : t' ∈ posTrades (pushTrade d t)) : t' ∈ posTrades d ∨ t' = t := by
  unfold posTrades pushTrade at *
  cases ht : t.side <;> simp only [ht] at h <;>
    simp only [List.mem_append, List.mem_singleton] at h ⊢ <;> tauto

/-- Every trade stored in the ghost position map sits under its own key. -/
def GhostWF (m : List (String × PosData)) : Prop :=
  ∀ k d, (k, d) ∈ m → ∀ t ∈ posTrades d, tradeKey t = k

theorem insertGhost_wf (m : List (String × PosData)) (t : Trade)
    (h : GhostWF m) : GhostWF (insertGhost m t) := by
  unfold insertGhost
  by_cases hany : m.any (fun p => p.1 = tradeKey t)
  · rw [if_pos hany]
    intro k d hkd t' ht'
    rw [List.mem_map] at hkd
    obtain ⟨⟨k0, d0⟩, hk0, heq⟩ := hkd
    by_cases hk : k0 = tradeKey t
    · simp only [hk, if_pos rfl] at heq
      obtain ⟨rfl, rfl⟩ := Prod.mk.injEq .. ▸ heq
      rcases mem_posTrades_pushTrade d0 t ht' with h' | h'
      · exact h _ d0 (hk ▸ hk0) t' h'
      · subst h'
        rfl
    · simp only [if_neg hk] at heq
      obtain ⟨rfl, rfl⟩ := Prod.mk.injEq .. ▸ heq
      exact h k0 d0 hk0 t' ht'
  · rw [if_neg hany]
    intro k d hkd t' ht'
    rcases List.mem_append.mp hkd with h' | h'
    · exact h k d h' t' ht'
    · rw [List.mem_singleton] at h'
      obtain ⟨rfl, rfl⟩ := Prod.mk.injEq .. ▸ h'
      rcases mem_posTrades_pushTrade (newPosData t) t ht' with h'' | h''
      · simp [posTrades, newPosData] at h''
      · subst h''
        rfl

theorem ghostPositionMap_wf (trades : List Trade) :
    GhostWF (ghostPositionMap trades) := by
  unfold ghostPositionMap
  have key : ∀ (rest : List Trade) (m : List (String × PosData)),
      GhostWF m → GhostWF (List.foldl insertGhost m rest) := by
    intro rest
    induction rest with
    | nil => intro m h; simpa using h
    | cons t ts ih =>
      intro m h
      rw [List.foldl_cons]
      exact ih (insertGhost m t) (insertGhost_wf m t h)
  exact key trades [] (by intro k d hkd; simp at hkd)

/-- Claim C6 (amended): two trades are aggregated into the same position
group exactly when their concatenated key strings
`conditionId ++ "-" ++ outcome` are equal.  For trades sharing a
`conditionId` this is equivalent to agreeing on the outcome (so
`conditionId` alone never suffices there), but trades with different
`conditionId`s can collide when a dash aligns; `buildGhostPortfolio`'s map
likewise keys every stored trade by the same concatenated string. -/
theorem grouping_key_amended :
    (∀ (trades : List Trade) (t1 t2 : Trade), t1 ∈ trades → t2 ∈ trades →
      (sameGroup trades t1 t2 ↔ tradeKey t1 = tradeKey t2))
    ∧ (∀ t1 t2 : Trade, t1.conditionId = t2.conditionId →
      (tradeKey t1 = tradeKey t2 ↔ t1.outcome = t2.outcome))
    ∧ (∀ (trades : List Trade) (k : String) (d : PosData) (t1 t2 : Trade),
      (k, d) ∈ ghostPositionMap trades → t1 ∈ posTrades d → t2 ∈ posTrades d →
      tradeKey t1 = tradeKey t2) := by
  refine ⟨?_, ?_, ?_⟩
  · intro trades t1 t2 h1 h2
    obtain ⟨hs, hc, hn⟩ := groupTrades_wf trades
    constructor
    · rintro ⟨k, g, hkg, hm1, hm2⟩
      rw [(hs k g hkg t1 hm1).2, (hs k g hkg t2 hm2).2]
    · intro hk
      obtain ⟨g1, hg1, hm1⟩ := hc t1 h1
      obtain ⟨g2, hg2, hm2⟩ := hc t2 h2
      rw [hk] at hg1
      have := nodup_keys_unique (groupTrades trades) (tradeKey t2) g1 g2 hn hg1 hg2
      subst this
      exact ⟨tradeKey t2, g1, hg1, hm1, hm2⟩
  · intro t1 t2 hcid
    constructor
    · intro hk
      unfold tradeKey at hk
      rw [hcid] at hk
      have hdata := congrArg String.data hk
      simp only [String.data_append] at hdata
      have houtcome := List.append_cancel_left hdata
      cases ho1 : t1.outcome
      cases ho2 : t2.outcome
      rw [ho1, ho2] at houtcome
      exact congrArg String.mk houtcome
    · intro ho
      unfold tradeKey
      rw [hcid, ho]
  · intro trades k d t1 t2 hkd hm1 hm2
    have hwf := ghostPositionMap_wf trades
    rw [hwf k d hkd t1 hm1, hwf k d hkd t2 hm2]

/-- Concrete instance of `grouping_key_amended`: two trades sharing
`conditionId` and `outcome` (with different titles) are grouped together. -/
theorem grouping_key_amended_witness :
    sameGroup
        [⟨"x", "m", "YES", .BUY, 1, 1, 1, 0⟩,
         ⟨"x", "m2", "YES", .SELL, 1, 1, 1, 0⟩]
        ⟨"x", "m", "YES", .BUY, 1, 1, 1, 0⟩
        ⟨"x", "m2", "YES", .SELL, 1, 1, 1, 0⟩ :=
  (grouping_key_amended.1
      [⟨"x", "m", "YES", .BUY, 1, 1, 1, 0⟩,
       ⟨"x", "m2", "YES", .SELL, 1, 1, 1, 0⟩]
      ⟨"x", "m", "YES", .BUY, 1, 1, 1, 0⟩
      ⟨"x", "m2", "YES", .SELL, 1, 1, 1, 0⟩
      (by simp) (by simp)).mpr rfl

/-- Claim C6 counterexample: the trades `("a-b", outcome "c")` and
`("a", outcome "b-c")` have different `conditionId`s yet are aggregated
into the same position group, because both have key string `"a-b-c"`. -/
theorem grouping_key_counterexample :
    sameGroup
        [⟨"a-b", "m", "c", .BUY, 1, 1, 1, 0⟩,
         ⟨"a", "m", "b-c", .BUY, 1, 1, 1, 0⟩]
        ⟨"a-b", "m", "c", .BUY, 1, 1, 1, 0⟩
        ⟨"a", "m", "b-c", .BUY, 1, 1, 1, 0⟩
    ∧ (⟨"a-b", "m", "c", .BUY, 1, 1, 1, 0⟩ : Trade).conditionId
        ≠ (⟨"a", "m", "b-c", .BUY, 1, 1, 1, 0⟩ : Trade).conditionId := by
  constructor
  · refine ⟨"a-b-c",
      [⟨"a-b", "m", "c", .BUY, 1, 1, 1, 0⟩,
       ⟨"a", "m", "b-c", .BUY, 1, 1, 1, 0⟩], ?_, by simp, by simp⟩
    have hg : groupTrades
        [⟨"a-b", "m", "c", .BUY, 1, 1, 1, 0⟩,
         ⟨"a", "m", "b-c", .BUY, 1, 1, 1, 0⟩]
      = [("a-b-c",
          [⟨"a-b", "m", "c", .BUY, 1, 1, 1, 0⟩,
           ⟨"a", "m", "b-c", .BUY, 1, 1, 1, 0⟩])] := by
      with_unfolding_all rfl
    rw [hg]
    simp
  · simp

-- ═══════════════════════════════════════════════════════════
-- Claim C10: guarded divisions and defined fallbacks
-- ═══════════════════════════════════════════════════════════

/-- Division that fails (returns `none`) unless the divisor is strictly
positive.  The checked variants below re-run the engine with every division
site routed through this guard, so proving them equal to the originals
shows no division site can be reached with a non-positive divisor. -/
def guardDiv (a b : ℚ) : Option ℚ :=
  if 0 < b then some (a / b) else none

theorem guardDiv_pos (a b : ℚ) (h : 0 < b) : guardDiv a b = some (a / b) := by
  simp [guardDiv, h]

/-- Checked variant of `realizedStep`. -/
def realizedStepChecked (sector : Sector) (s : GroupSums) (st : AnalysisState) :
    Option AnalysisState :=
  if 0 < s.buyShares ∧ 0 < s.sellShares then
    (guardDiv s.buyValue s.buyShares).bind fun avgBuyPrice =>
    (guardDiv s.sellValue s.sellShares).map fun avgSellPrice =>
      let closedShares := min s.buyShares s.sellShares
      let pnl := (avgSellPrice - avgBuyPrice) * closedShares
      if 0 < pnl then addWin sector pnl st else addLoss sector pnl st
  else some st

theorem realizedStepChecked_eq (sector : Sector) (s : GroupSums)
    (st : AnalysisState) :
    realizedStepChecked sector s st = some (realizedStep sector s st) := by
  unfold realizedStepChecked realizedStep
  by_cases h : 0 < s.buyShares ∧ 0 < s.sellShares
  · rw [if_pos h, if_pos h, guardDiv_pos _ _ h.1, guardDiv_pos _ _ h.2]
    rfl
  · rw [if_neg h, if_neg h]

/-- Checked variant of `heldStep`. -/
def heldStepChecked (resolutions : List (String × MarketResolutionInfo))
    (t0 : Trade) (sector : Sector) (s : GroupSums) (st : AnalysisState) :
    Option AnalysisState :=
  let remainingShares := s.buyShares - s.sellShares
  if 0 < remainingShares then
    match resolutions.lookup t0.conditionId with
    | some r =>
      if r.isClosed ∧ r.resolutionStatus = some .RESOLVED then
        (guardDiv s.buyValue s.buyShares).map fun avgBuyPrice =>
          let isWinner := r.winningOutcome = some t0.outcome
          let finalPrice : ℚ := if isWinner then 1 else 0
          let resolutionPnL := (finalPrice - avgBuyPrice) * remainingShares
          if 0 < resolutionPnL then addWin sector resolutionPnL st
          else addLoss sector resolutionPnL st
      else some st
    | none => some st
  else some st

theorem heldStepChecked_eq (resolutions : List (String × MarketResolutionInfo))
    (t0 : Trade) (sector : Sector) (s : GroupSums) (st : AnalysisState)
    (hsell : 0 ≤ s.sellShares) :
    heldStepChecked resolutions t0 sector s st
      = some (heldStep resolutions t0 sector s st) := by
  unfold heldStepChecked heldStep
  dsimp only
  by_cases hrem : 0 < s.buyShares - s.sellShares
  · rw [if_pos hrem, if_pos hrem]
    cases resolutions.lookup t0.conditionId with
    | none => rfl
    | some r =>
      dsimp only
      by_cases hres : r.isClosed = true ∧ r.resolutionStatus = some .RESOLVED
      · rw [if_pos hres, if_pos hres]
        have hbuy : 0 < s.buyShares := by linarith
        rw [guardDiv_pos _ _ hbuy]
        rfl
      · rw [if_neg hres, if_neg hres]
  · rw [if_neg hrem, if_neg hrem]

theorem sumGroup_sellShares_nonneg (g : List Trade)
    (h : ∀ t ∈ g, 0 ≤ t.size) : 0 ≤ (sumGroup g).sellShares := by
  have key : ∀ (l : List Trade) (s : GroupSums), 0 ≤ s.sellShares →
      (∀ t ∈ l, 0 ≤ t.size) →
      0 ≤ (List.foldl
        (fun s t =>
          match t.side with
          | .BUY => { s with buyValue := s.buyValue + t.usdcAmount,
                             buyShares := s.buyShares + t.size }
          | .SELL => { s with sellValue := s.sellValue + t.usdcAmount,
                              sellShares := s.sellShares + t.size })
        s l).sellShares := by
    intro l
    induction l with
    | nil => intro s hs _; simpa using hs
    | cons t ts ih =>
      intro s hs hl
      rw [List.foldl_cons]
      have ht : 0 ≤ t.size := hl t (List.mem_cons_self t ts)
      have hts : ∀ t' ∈ ts, 0 ≤ t'.size :=
        fun t' ht' => hl t' (List.mem_cons_of_mem t ht')
      cases hside : t.side
      · simp only [hside]
        exact ih _ hs hts
      · simp only [hside]
        exact ih _ (by simpa using add_nonneg hs ht) hts
  exact key g ⟨0, 0, 0, 0⟩ le_rfl h

/-- Checked variant of `processGroup`. -/
def processGroupChecked (resolutions : List (String × MarketResolutionInfo))
    (st : AnalysisState) (g : List Trade) : Option AnalysisState :=
  match g.head? with
  | none => some st
  | some t0 =>
    let sector := detectSector (some t0.marketTitle)
    let s := sumGroup g
    (realizedStepChecked sector s (volumeStep sector s st)).bind
      (heldStepChecked resolutions t0 sector s)

theorem processGroupChecked_eq
    (resolutions : List (String × MarketResolutionInfo))
    (st : AnalysisState) (g : List Trade) (hg : ∀ t ∈ g, 0 ≤ t.size) :
    processGroupChecked resolutions st g
      = some (processGroup resolutions st g) := by
  unfold processGroupChecked processGroup
  cases g.head? with
  | none => rfl
  | some t0 =>
    dsimp only
    rw [realizedStepChecked_eq]
    rw [Option.some_bind]
    exact heldStepChecked_eq _ _ _ _ _ (sumGroup_sellShares_nonneg g hg)

/-- Folding a checked step that never fails over a list never fails, and
agrees with the unchecked fold. -/
theorem foldlM_eq_foldl {α β : Type} (f' : β → α → Option β) (f : β → α → β)
    (l : List α) (hpt : ∀ a ∈ l, ∀ st, f' st a = some (f st a)) :
    ∀ init : β, l.foldlM f' init = some (l.foldl f init) := by
  induction l with
  | nil => intro init; rfl
  | cons a as ih =>
    intro init
    rw [List.foldlM_cons, hpt a (List.mem_cons_self a as), List.foldl_cons]
    simp only [Option.bind_eq_bind, Option.some_bind]
    exact ih (fun a' ha' st => hpt a' (List.mem_cons_of_mem a ha') st) (f init a)

def finalStateChecked (trades : List Trade)
    (resolutions : List (String × MarketResolutionInfo)) :
    Option AnalysisState :=
  (groupTrades trades).foldlM
    (fun st g => processGroupChecked resolutions st g.2) initState

theorem finalStateChecked_eq (trades : List Trade)
    (resolutions : List (String × MarketResolutionInfo))
    (h : ∀ t ∈ trades, 0 ≤ t.size) :
    finalStateChecked trades resolutions = some (finalState trades resolutions) := by
  unfold finalStateChecked finalState
  apply foldlM_eq_foldl
  intro kg hkg st
  apply processGroupChecked_eq
  intro t ht
  exact h t ((groupTrades_wf trades).1 kg.1 kg.2 hkg t ht).1

def winRateChecked (st : AnalysisState) : Option ℚ :=
  if 0 < st.wins + st.losses then
    (guardDiv (st.wins : ℚ) ((st.wins + st.losses : ℕ) : ℚ)).map fun q => q * 100
  else some 0

theorem winRateChecked_eq (st : AnalysisState) :
    winRateChecked st
      = some (if 0 < st.wins + st.losses then
          ((st.wins : ℚ) / ((st.wins + st.losses : ℕ) : ℚ)) * 100 else 0) := by
  unfold winRateChecked
  by_cases h : 0 < st.wins + st.losses
  · rw [if_pos h, if_pos h, guardDiv_pos _ _ (by exact_mod_cast h)]
    rfl
  · rw [if_neg h, if_neg h]

def profitFactorChecked (st : AnalysisState) : Option ℚ :=
  if 0 < st.grossLoss then guardDiv st.grossProfit st.grossLoss
  else some (if 0 < st.grossProfit then 10 else 0)

theorem profitFactorChecked_eq (st : AnalysisState) :
    profitFactorChecked st
      = some (if 0 < st.grossLoss then st.grossProfit / st.grossLoss
          else if 0 < st.grossProfit then 10 else 0) := by
  unfold profitFactorChecked
  by_cases h : 0 < st.grossLoss
  · rw [if_pos h, if_pos h, guardDiv_pos _ _ h]
  · rw [if_neg h, if_neg h]

def sbEntryChecked (ss : SectorStat) : Option SBEntry :=
  if 0 < ss.wins + ss.losses then
    (guardDiv (ss.wins : ℚ) ((ss.wins + ss.losses : ℕ) : ℚ)).map
      fun q => ⟨ss.wins + ss.losses, q * 100⟩
  else some ⟨ss.wins + ss.losses, 0⟩

theorem sbEntryChecked_eq (ss : SectorStat) :
    sbEntryChecked ss
      = some ⟨ss.wins + ss.losses,
          if 0 < ss.wins + ss.losses then
            ((ss.wins : ℚ) / ((ss.wins + ss.losses : ℕ) : ℚ)) * 100 else 0⟩ := by
  unfold sbEntryChecked
  by_cases h : 0 < ss.wins + ss.losses
  · rw [if_pos h, if_pos h, guardDiv_pos _ _ (by exact_mod_cast h)]
    rfl
  · rw [if_neg h, if_neg h]

def sectorBreakdownChecked (st : AnalysisState) : Option (Sector → SBEntry) :=
  (sbEntryChecked (st.sectorStats .Politics)).bind fun p =>
  (sbEntryChecked (st.sectorStats .Crypto)).bind fun c =>
  (sbEntryChecked (st.sectorStats .Sports)).bind fun sp =>
  (sbEntryChecked (st.sectorStats .Business)).bind fun b =>
  (sbEntryChecked (st.sectorStats .Entertainment)).bind fun e =>
  (sbEntryChecked (st.sectorStats .Other)).map fun o =>
    fun sec =>
      match sec with
      | .Politics => p
      | .Crypto => c
      | .Sports => sp
      | .Business => b
      | .Entertainment => e
      | .Other => o

theorem sectorBreakdownChecked_eq (st : AnalysisState) :
    sectorBreakdownChecked st
      = some (fun sec =>
          ⟨(st.sectorStats sec).wins + (st.sectorStats sec).losses,
            if 0 < (st.sectorStats sec).wins + (st.sectorStats sec).losses then
              (((st.sectorStats sec).wins : ℚ)
                / (((st.sectorStats sec).wins
                    + (st.sectorStats sec).losses : ℕ) : ℚ)) * 100
            else 0⟩) := by
  unfold sectorBreakdownChecked
  rw [sbEntryChecked_eq, sbEntryChecked_eq, sbEntryChecked_eq, sbEntryChecked_eq,
    sbEntryChecked_eq, sbEntryChecked_eq]
  simp only [Option.some_bind, Option.map_some]
  refine congrArg some (funext fun sec => ?_)
  cases sec <;> rfl

/-- Checked variant of `analyzeTrades` with every division site guarded. -/
def analyzeTradesChecked (trades : List Trade)
    (resolutions : List (String × MarketResolutionInfo)) (now : Int) :
    Option TradeAnalysis :=
  if trades = [] then some getEmptyAnalysis
  else
    (finalStateChecked trades resolutions).bind fun st =>
    (winRateChecked st).bind fun winRate =>
    (profitFactorChecked st).bind fun profitFactor =>
    (sectorBreakdownChecked st).map fun sb =>
      { winRate := winRate
        profitFactor := profitFactor
        totalVolume := st.totalVolume
        tradeCount := trades.length
        sectorBreakdown := sb
        specialty := specialtyOf st
        recentPnL := st.grossProfit - st.grossLoss
        volumeHistory := calculateVolumeHistory trades now }

theorem analyzeTradesChecked_eq (trades : List Trade)
    (resolutions : List (String × MarketResolutionInfo)) (now : Int)
    (h : ∀ t ∈ trades, 0 ≤ t.size) :
    analyzeTradesChecked trades resolutions now
      = some (analyzeTrades trades resolutions now) := by
  unfold analyzeTradesChecked analyzeTrades
  by_cases hne : trades = []
  · rw [if_pos hne, if_pos hne]
  · rw [if_neg hne, if_neg hne]
    rw [finalStateChecked_eq trades resolutions h]
    rw [Option.some_bind, winRateChecked_eq, Option.some_bind,
      profitFactorChecked_eq, Option.some_bind, sectorBreakdownChecked_eq,
      Option.map_some']

/-- Checked variant of `processGhostPos`.  The average entry price is
only divided when `buyShares > 0` (else the literal fallback 0), the average
sell price only under the `sellShares > 0 && buyShares > 0` guard, and a
missing current price falls back to the average entry price. -/
def processGhostPosChecked (currentPrices : List (String × ℚ)) (acc : GhostAcc)
    (entry : String × PosData) : Option GhostAcc :=
  let key := entry.1
  let d := entry.2
  let buyShares := d.buys.foldl (fun s t => s + t.size) (0 : ℚ)
  let buyValue := d.buys.foldl (fun s t => s + t.usdcAmount) (0 : ℚ)
  let sellShares := d.sells.foldl (fun s t => s + t.size) (0 : ℚ)
  let sellValue := d.sells.foldl (fun s t => s + t.usdcAmount) (0 : ℚ)
  let remainingShares := buyShares - sellShares
  (if 0 < buyShares then guardDiv buyValue buyShares else some 0).bind
    fun avgEntryPrice =>
  let acc1 := { acc with
    totalInvested := acc.totalInvested + buyValue
    totalReturns := acc.totalReturns + sellValue }
  (if 0 < sellShares ∧ 0 < buyShares then
      (guardDiv sellValue sellShares).map fun avgSellPrice =>
        let closedShares := min buyShares sellShares
        { acc1 with realizedPnL :=
            acc1.realizedPnL + (avgSellPrice - avgEntryPrice) * closedShares }
    else some acc1).map fun acc2 =>
  let currentPrice := (currentPrices.lookup key).getD avgEntryPrice
  let currentValue := remainingShares * currentPrice
  let unrealizedPnL := currentValue - remainingShares * avgEntryPrice
  if 0 < remainingShares ∨ 0 < sellShares then
    { acc2 with positions := acc2.positions ++
        [{ conditionId := d.conditionId
           outcome := d.outcome
           marketTitle := d.marketTitle
           sector := detectSector (some d.marketTitle)
           shares := remainingShares
           avgEntryPrice := avgEntryPrice
           totalCost := remainingShares * avgEntryPrice
           currentValue := currentValue
           unrealizedPnL := unrealizedPnL
           trades := d.buys ++ d.sells }] }
  else acc2

theorem processGhostPosChecked_eq (currentPrices : List (String × ℚ))
    (acc : GhostAcc) (entry : String × PosData) :
    processGhostPosChecked currentPrices acc entry
      = some (processGhostPos currentPrices acc entry) := by
  unfold processGhostPosChecked processGhostPos
  dsimp only
  by_cases hb : 0 < entry.2.buys.foldl (fun s t => s + t.size) (0 : ℚ)
  · rw [if_pos hb, if_pos hb, guardDiv_pos _ _ hb, Option.some_bind]
    by_cases hs2 : 0 < entry.2.sells.foldl (fun s t => s + t.size) (0 : ℚ)
        ∧ 0 < entry.2.buys.foldl (fun s t => s + t.size) (0 : ℚ)
    · rw [if_pos hs2, if_pos hs2, guardDiv_pos _ _ hs2.1, Option.map_some',
        Option.map_some']
    · rw [if_neg hs2, if_neg hs2, Option.map_some']
  · rw [if_neg hb, if_neg hb, Option.some_bind]
    by_cases hs2 : 0 < entry.2.sells.foldl (fun s t => s + t.size) (0 : ℚ)
        ∧ 0 < entry.2.buys.foldl (fun s t => s + t.size) (0 : ℚ)
    · exact absurd hs2.2 hb
    · rw [if_neg hs2, if_neg hs2, Option.map_some']

/-- Checked variant of `buildGhostPortfolio`. -/
def buildGhostPortfolioChecked (wallet : WatchedWallet) (trades : List Trade)
    (currentPrices : List (String × ℚ)) (now : Int) :
    Option GhostPortfolioSummary :=
  let ghostTrades := getGhostTrades wallet trades
  match wallet.ghostStartedAt with
  | none => some (getEmptyGhostPortfolio wallet now)
  | some g =>
    ((ghostPositionMap ghostTrades).foldlM
        (processGhostPosChecked currentPrices) ⟨[], 0, 0, 0⟩).map fun acc =>
      let unrealizedPnL := acc.positions.foldl (fun s p => s + p.unrealizedPnL) 0
      { walletId := wallet.id
        walletLabel := wallet.label
        ghostStartedAt := g
        totalInvested := acc.totalInvested
        totalReturns := acc.totalReturns
        realizedPnL := acc.realizedPnL
        unrealizedPnL := unrealizedPnL
        totalPnL := acc.realizedPnL + unrealizedPnL
        positions := acc.positions
        tradeCount := ghostTrades.length }

theorem buildGhostPortfolioChecked_eq (wallet : WatchedWallet)
    (trades : List Trade) (currentPrices : List (String × ℚ)) (now : Int) :
    buildGhostPortfolioChecked wallet trades currentPrices now
      = some (buildGhostPortfolio wallet trades currentPrices now) := by
  unfold buildGhostPortfolioChecked buildGhostPortfolio
  cases wallet.ghostStartedAt with
  | none => rfl
  | some g =>
    dsimp only
    rw [foldlM_eq_foldl (processGhostPosChecked currentPrices)
      (processGhostPos currentPrices) _
      (fun entry _ acc => processGhostPosChecked_eq currentPrices acc entry)]
    rw [Option.map_some']

/-- Claim C10: on any well-typed input (non-negative trade sizes, per the
data model), `analyzeTrades` and `buildGhostPortfolio` run to completion
with every division evaluated under a strictly-positive-divisor guard and
every missing lookup replaced by its defined fallback: the fully
division-checked re-runs succeed and return the very same results. -/
theorem no_runtime_division_by_zero (trades : List Trade)
    (resolutions : List (String × MarketResolutionInfo)) (now : Int)
    (wallet : WatchedWallet) (prices : List (String × ℚ))
    (h : ∀ t ∈ trades, 0 ≤ t.size) :
    analyzeTradesChecked trades resolutions now
        = some (analyzeTrades trades resolutions now)
    ∧ buildGhostPortfolioChecked wallet trades prices now
        = some (buildGhostPortfolio wallet trades prices now) :=
  ⟨analyzeTradesChecked_eq trades resolutions now h,
    buildGhostPortfolioChecked_eq wallet trades prices now⟩

/-- Concrete instance of `no_runtime_division_by_zero`: a one-trade history
(held position, no resolution) passes both checked engines. -/
theorem no_runtime_division_by_zero_witness :
    analyzeTradesChecked
        [{ conditionId := "c", marketTitle := "m", outcome := "YES",
           side := .BUY, size := 10, price := 2/5, usdcAmount := 4,
           timestamp := 0 }] [] 0
      = some (analyzeTrades
          [{ conditionId := "c", marketTitle := "m", outcome := "YES",
             side := .BUY, size := 10, price := 2/5, usdcAmount := 4,
             timestamp := 0 }] [] 0)
    ∧ buildGhostPortfolioChecked ⟨"w", "l", true, some 0⟩
        [{ conditionId := "c", marketTitle := "m", outcome := "YES",
           side := .BUY, size := 10, price := 2/5, usdcAmount := 4,
           timestamp := 0 }] [] 0
      = some (buildGhostPortfolio ⟨"w", "l", true, some 0⟩
          [{ conditionId := "c", marketTitle := "m", outcome := "YES",
             side := .BUY, size := 10, price := 2/5, usdcAmount := 4,
             timestamp := 0 }] [] 0) :=
  no_runtime_division_by_zero
    [{ conditionId := "c", marketTitle := "m", outcome := "YES",
       side := .BUY, size := 10, price := 2/5, usdcAmount := 4,
       timestamp := 0 }] [] 0 ⟨"w", "l", true, some 0⟩ []
    (by intro t ht; rw [List.mem_singleton] at ht; subst ht; norm_num)

end Polytracker
